import Mathlib

/-!
Verification of the `ytcc` transcript-acquisition pipeline (`src/ytcc.py`).

Strings are modelled as `List Char`.  Python's `str.strip`, `str.split`,
`str.isdigit` (ASCII digits), `in` (substring), `re.sub(r'<[^>]+>', '', s)`,
and `' '.join` are embedded below.  The subprocess / filesystem layer of the
acquisition controller is modelled by an explicit oracle (per-attempt outcome
and the set of files the external tool created) together with an association
list filesystem; a ghost `Trace` records observable events (attempts run,
fallback invocations, names of files created during the call).
-/

set_option autoImplicit false

namespace Ytcc

/-- Python whitespace for `str.strip` (ASCII range). -/
def isPyWs (c : Char) : Bool :=
  c = ' ' || c = '\t' || c = '\n' || c = '\r' || c = '\x0b' || c = '\x0c'

/-- Drop leading whitespace (front half of `str.strip`). -/
def dropWs : List Char → List Char
  | [] => []
  | c :: rest => if isPyWs c then dropWs rest else c :: rest

/-- `str.strip()`: drop leading and trailing whitespace. -/
def pyStrip (l : List Char) : List Char :=
  ((dropWs l).reverse |> dropWs).reverse

/-- `str.lower()` (ASCII model). -/
def pyLower (l : List Char) : List Char := l.map Char.toLower

/-- `str.isdigit()`: nonempty and all digits (ASCII model). -/
def pyIsDigit (l : List Char) : Bool := !l.isEmpty && l.all Char.isDigit

/-- `str.split(sep)` for a single-character separator: always returns at
least one (possibly empty) piece. -/
def splitOnChar (sep : Char) : List Char → List (List Char)
  | [] => [[]]
  | c :: rest =>
    if c = sep then [] :: splitOnChar sep rest
    else
      match splitOnChar sep rest with
      | [] => [[c]]
      | h :: t => (c :: h) :: t

/-- `str.split('\n')`. -/
def splitLines (l : List Char) : List (List Char) := splitOnChar '\n' l

/-- Python `sub in s` substring test. -/
def containsSub (pat : List Char) (l : List Char) : Bool :=
  pat.isPrefixOf l ||
    match l with
    | [] => false
    | _ :: rest => containsSub pat rest

/-- `' '.join(lines)`. -/
def joinSpace : List (List Char) → List Char
  | [] => []
  | [l] => l
  | l :: l' :: ls => l ++ ' ' :: joinSpace (l' :: ls)

/-- Scanner for `re.sub(r'<[^>]+>', '', s)`.  The state is `none` outside a
potential tag, or `some buf` with the pending characters (in reverse, always
starting from a `'<'`) of a potential tag whose closing `'>'` has not been
seen yet.  A `'>'` right after `'<'` is not a match (the regex needs at least
one inner character); a `'<'` never closed before the end of the input is
emitted verbatim together with the buffered characters. -/
def stripTagsAux : List Char → Option (List Char) → List Char
  | [], none => []
  | [], some buf => buf.reverse
  | c :: rest, none =>
    if c = '<' then stripTagsAux rest (some ['<'])
    else c :: stripTagsAux rest none
  | c :: rest, some buf =>
    if c = '>' then
      if buf = ['<'] then '<' :: '>' :: stripTagsAux rest none
      else stripTagsAux rest none
    else stripTagsAux rest (some (c :: buf))

/-- `re.sub(r'<[^>]+>', '', s)` (lines 125 and 437 of the source). -/
def stripTags (l : List Char) : List Char := stripTagsAux l none

/-- All `'<'` of the string open a complete `<[^>]+>` tag; the state records
whether a tag is open and already has at least one inner character.  This is
the well-formedness predicate used for the tag-stripping claim. -/
def tagsClosedAux : List Char → Option Bool → Bool
  | [], none => true
  | [], some _ => false
  | c :: rest, none =>
    if c = '<' then tagsClosedAux rest (some false)
    else tagsClosedAux rest none
  | c :: rest, some hasContent =>
    if c = '>' then hasContent && tagsClosedAux rest none
    else tagsClosedAux rest (some true)

/-- Every `'<'` of the string opens a complete `<[^>]+>` tag. -/
def tagsClosed (l : List Char) : Bool := tagsClosedAux l none

/-- Scanner deciding whether some substring matches `<[^>]+>`. -/
def hasTagAux : List Char → Option Bool → Bool
  | [], _ => false
  | c :: rest, none =>
    if c = '<' then hasTagAux rest (some false)
    else hasTagAux rest none
  | c :: rest, some hasContent =>
    if c = '>' then hasContent || hasTagAux rest none
    else hasTagAux rest (some true)

/-- Some substring of `l` matches the inline-markup regex `<[^>]+>`. -/
def hasTag (l : List Char) : Bool := hasTagAux l none

/-- The cue-timing delimiter. -/
def arrowL : List Char := "-->".toList

/-- Skip condition of `parse_srt` (line 122): empty, purely numeric, or
containing the timing delimiter. -/
def srtSkip (line : List Char) : Bool :=
  line.isEmpty || pyIsDigit line || containsSub arrowL line

/-- WebVTT header token. -/
def webvttL : List Char := "WEBVTT".toList

/-- WebVTT comment token. -/
def noteL : List Char := "NOTE".toList

/-- Skip condition of `parse_vtt` (lines 431-433): empty, header, comment,
timing line, inline-tag opener, or purely numeric. -/
def vttSkip (line : List Char) : Bool :=
  line.isEmpty || webvttL.isPrefixOf line || noteL.isPrefixOf line ||
    containsSub arrowL line ||
    (match line with | '<' :: _ => true | _ => false) ||
    pyIsDigit line

/-- The shared per-line loop of `parse_srt` / `parse_vtt` (lines 119-131 and
428-443): strip the line, skip non-text lines, strip inline tags, strip
again, and keep the result when it is nonempty and not seen before. -/
def parseLinesLoop (skip : List Char → Bool) :
    List (List Char) → List (List Char) → List (List Char)
  | [], _seen => []
  | l :: rest, seen =>
    let line := pyStrip l
    if skip line then parseLinesLoop skip rest seen
    else
      let cleaned := pyStrip (stripTags line)
      if cleaned ≠ [] ∧ cleaned ∉ seen then
        cleaned :: parseLinesLoop skip rest (cleaned :: seen)
      else parseLinesLoop skip rest seen

/-- `parse_srt` on character lists (lines 111-133): iterate over the lines
of the stripped content and join the kept lines with one space. -/
def parseSrtL (content : List Char) : List Char :=
  joinSpace (parseLinesLoop srtSkip (splitLines (pyStrip content)) [])

/-- `parse_vtt` on character lists (lines 421-445): same loop over the lines
of the raw content with the WebVTT skip condition. -/
def parseVttL (content : List Char) : List Char :=
  joinSpace (parseLinesLoop vttSkip (splitLines content) [])

/-- `parse_srt` (source lines 111-133). -/
def parse_srt (s : String) : String := ⟨parseSrtL s.toList⟩

/-- `parse_vtt` (source lines 421-445). -/
def parse_vtt (s : String) : String := ⟨parseVttL s.toList⟩

/-! Specification-side helpers for the deduplication claim. -/

/-- The stream of cleaned candidate lines, in input order, before
deduplication: one entry per input line that survives the skip condition
with a nonempty cleaned text. -/
def cleanedStream (skip : List Char → Bool) (ls : List (List Char)) :
    List (List Char) :=
  ls.filterMap fun l =>
    let line := pyStrip l
    if skip line then none
    else
      let cleaned := pyStrip (stripTags line)
      if cleaned = [] then none else some cleaned

/-- First-occurrence deduplication relative to an already-seen set. -/
def dedupFrom (seen : List (List Char)) : List (List Char) → List (List Char)
  | [] => []
  | c :: rest =>
    if c ∈ seen then dedupFrom seen rest
    else c :: dedupFrom (c :: seen) rest

/-- Index of the first occurrence of `x` (length of the list if absent). -/
def firstIdx (x : List Char) : List (List Char) → Nat
  | [] => 0
  | y :: ys => if y = x then 0 else firstIdx x ys + 1

/-- The raw lines `parse_srt` iterates over. -/
def srtLines (s : String) : List (List Char) := splitLines (pyStrip s.toList)

/-- The raw lines `parse_vtt` iterates over. -/
def vttLines (s : String) : List (List Char) := splitLines s.toList

/-- Cleaned candidate stream of `parse_srt`. -/
def srtStream (s : String) : List (List Char) := cleanedStream srtSkip (srtLines s)

/-- Kept (output) lines of `parse_srt`. -/
def srtOut (s : String) : List (List Char) := parseLinesLoop srtSkip (srtLines s) []

/-- Cleaned candidate stream of `parse_vtt`. -/
def vttStream (s : String) : List (List Char) := cleanedStream vttSkip (vttLines s)

/-- Kept (output) lines of `parse_vtt`. -/
def vttOut (s : String) : List (List Char) := parseLinesLoop vttSkip (vttLines s) []

/-- The two-cue example input of the specification scenario. -/
def twoCueSrt : String :=
  "1\n00:00:01,000 --> 00:00:02,000\nHello world\n\n2\n00:00:02,000 --> 00:00:03,000\nHello world\n"

/-! URL classifier (`extract_video_id`, lines 24-37), with the slice of
`urllib.parse.urlsplit` / `parse_qs` it relies on.  Percent-escape and
plus-sign decoding of query values is not modelled (no input in scope
contains escapes). -/

/-- Split at the first occurrence of `sep`: `some (before, after)` with
`l = before ++ sep :: after`, or `none` when `sep` does not occur. -/
def splitAtFirst (sep : Char) : List Char → Option (List Char × List Char)
  | [] => none
  | c :: rest =>
    if c = sep then some ([], rest)
    else
      match splitAtFirst sep rest with
      | some (b, a) => some (c :: b, a)
      | none => none

/-- Valid scheme characters of `urllib.parse`. -/
def isSchemeChar (c : Char) : Bool := c.isAlphanum || c = '+' || c = '-' || c = '.'

/-- Result of `urllib.parse.urlparse` (the fields the source reads). -/
structure UrlParts where
  scheme : List Char
  netloc : List Char
  path : List Char
  query : List Char
  fragment : List Char
deriving DecidableEq

/-- `urllib.parse.urlsplit`: scheme before a valid `:`, netloc after `//`
up to the first `/`, `?` or `#`, then fragment after the first `#`, then
query after the first `?`. -/
def urlsplit (url : List Char) : UrlParts :=
  let schemeRest : List Char × List Char :=
    match splitAtFirst ':' url with
    | some (before, after) =>
      if (match before with | c :: _ => c.isAlpha | [] => false)
          && before.all isSchemeChar
      then (before.map Char.toLower, after) else ([], url)
    | none => ([], url)
  let netlocRest : List Char × List Char :=
    match schemeRest.2 with
    | '/' :: '/' :: rest =>
      let n := rest.takeWhile fun c => !(c = '/' || c = '?' || c = '#')
      (n, rest.drop n.length)
    | u => ([], u)
  let pathqFrag : List Char × List Char :=
    match splitAtFirst '#' netlocRest.2 with
    | some (b, a) => (b, a)
    | none => (netlocRest.2, [])
  let pathQuery : List Char × List Char :=
    match splitAtFirst '?' pathqFrag.1 with
    | some (b, a) => (b, a)
    | none => (pathqFrag.1, [])
  ⟨schemeRest.1, netlocRest.1, pathQuery.1, pathQuery.2, pathqFrag.2⟩

/-- `parse_qs(query)` name/value pairs: fields split on `&`, each split at
its first `=`; fields without `=` or with an empty value are dropped
(`keep_blank_values` is false). -/
def qsPairs (query : List Char) : List (List Char × List Char) :=
  (splitOnChar '&' query).filterMap fun field =>
    match splitAtFirst '=' field with
    | some (k, v) => if v = [] then none else some (k, v)
    | none => none

/-- `parse_qs(query).get(key, [None])[0]`: first value bound to `key`. -/
def qsGet (key : List Char) (query : List Char) : Option (List Char) :=
  ((qsPairs query).find? fun p => p.1 = key).map fun p => p.2

/-- Hostname fragment tested on line 28. -/
def ytHostL : List Char := "youtube.com".toList

/-- Path fragment tested on line 29. -/
def watchL : List Char := "watch".toList

/-- Path fragment tested on line 31. -/
def embedL : List Char := "embed".toList

/-- Hostname fragment tested on line 33. -/
def shortHostL : List Char := "youtu.be".toList

/-- Query key read on line 30. -/
def vKeyL : List Char := "v".toList

/-- `extract_video_id(url)` (lines 24-37): watch URLs use the `v` query
parameter, embed URLs the last path segment, short-host URLs the path with
leading slashes stripped. -/
def extract_video_id (url : List Char) : Option (List Char) :=
  let p := urlsplit url
  if containsSub ytHostL p.netloc then
    if containsSub watchL p.path then qsGet vKeyL p.query
    else if containsSub embedL p.path then
      some ((splitOnChar '/' p.path).getLastD [])
    else none
  else if containsSub shortHostL p.netloc then
    some (p.path.dropWhile fun c => c = '/')
  else none

/-! File selector (`select_best_subtitle_file`, lines 58-109).  The global
`AUTO_SELECT_MODE` flag and the interactive `input()` stream are passed
explicitly; an exhausted input stream models an uncaught `EOFError`. -/

/-- One interactive event: a typed line, or `Ctrl+C` (`KeyboardInterrupt`). -/
inductive InputEvent where
  | line (s : List Char)
  | interrupt
deriving DecidableEq

/-- Outcome of the selector: a chosen path, `None` (user cancelled), or an
uncaught exception escaping the function. -/
inductive SelOutcome where
  | selected (f : List Char)
  | cancelled
  | err
deriving DecidableEq

/-- `min(srt_files, key=len)`: first element of minimal length. -/
def minByLen : List (List Char) → List Char
  | [] => []
  | [f] => f
  | f :: rest =>
    let m := minByLen rest
    if f.length ≤ m.length then f else m

/-- `int(s)` on a stripped string: optional sign then ASCII digits (digit
group underscores are not modelled). -/
def pyInt (l : List Char) : Option Int :=
  let digits : List Char → Option Int := fun ds =>
    if pyIsDigit ds then
      some (Int.ofNat (ds.foldl (fun acc c => acc * 10 + (c.toNat - '0'.toNat)) 0))
    else none
  match l with
  | '-' :: rest => (digits rest).map fun n => -n
  | '+' :: rest => digits rest
  | _ => digits l

/-- The interactive `while True` prompt loop (lines 89-109): empty input
auto-selects the shortest name, a valid in-range number selects, invalid
input re-prompts, interrupt cancels, end of input raises. -/
def selLoop (srt_files : List (List Char)) : List InputEvent → SelOutcome
  | [] => .err
  | .interrupt :: _ => .cancelled
  | .line s :: rest =>
    let choice := pyStrip s
    if choice.isEmpty then .selected (minByLen srt_files)
    else
      match pyInt choice with
      | none => selLoop srt_files rest
      | some n =>
        if 1 ≤ n ∧ n ≤ srt_files.length then
          .selected (srt_files.getD (n - 1).toNat [])
        else selLoop srt_files rest

/-- `select_best_subtitle_file(srt_files, video_url)` (lines 58-109):
single candidate returned immediately; else first candidate containing the
extracted video id; else shortest name in auto mode; else the prompt loop. -/
def select_best_subtitle_file (srt_files : List (List Char))
    (video_url : List Char) (autoMode : Bool) (inputs : List InputEvent) :
    SelOutcome :=
  if srt_files.length = 1 then .selected (srt_files.headD [])
  else
    let byId : Option (List Char) :=
      match extract_video_id video_url with
      | some vid =>
        if vid ≠ [] then srt_files.find? fun f => containsSub vid f
        else none
      | none => none
    match byId with
    | some f => .selected f
    | none =>
      if autoMode then .selected (minByLen srt_files)
      else selLoop srt_files inputs

/-! Acquisition controller (`get_transcript_with_yt_dlp`, lines 135-302) and
fallback path (`try_fallback_mode`, lines 304-419).  The subprocess layer is
an oracle: per attempt, the run outcome and the files the tool wrote into
the working directory. -/

/-- Outcome of one `subprocess.run` of the external tool. -/
inductive RunOutcome where
  | success
  | timeout
  | fail (stderr : List Char)
deriving DecidableEq

/-- Oracle for one invocation: the files the tool created (name, content)
and how the process finished.  A `fail` with empty stderr also models
`e.stderr is None`. -/
structure AttemptEnv where
  created : List (List Char × List Char)
  outcome : RunOutcome
deriving DecidableEq

/-- Working-directory filesystem: an association list of name/content. -/
def FS : Type := List (List Char × List Char)

/-- Remove every entry named `nm` (`os.remove`). -/
def removeName (fs : FS) (nm : List Char) : FS :=
  fs.filter fun p => decide (p.1 ≠ nm)

/-- Write one file, overwriting any previous content. -/
def addFile (fs : FS) (p : List Char × List Char) : FS := p :: removeName fs p.1

/-- Write the files created by one tool invocation. -/
def addFiles (fs : FS) (ps : List (List Char × List Char)) : FS :=
  ps.foldl addFile fs

/-- Names present in the working directory. -/
def fsNames (fs : FS) : List (List Char) := fs.map fun p => p.1

/-- `open(nm).read()`: content of the first entry named `nm`. -/
def readFile (fs : FS) (nm : List Char) : List Char :=
  ((fs.find? fun p => decide (p.1 = nm)).map fun p => p.2).getD []

/-- Caption-file suffix of the primary glob. -/
def srtSuffixL : List Char := ".srt".toList

/-- Infix of the primary glob pattern. -/
def enDotL : List Char := ".en".toList

/-- Name matches the primary caption glob `*.en*.srt`. -/
def matchEnSrt (nm : List Char) : Bool :=
  srtSuffixL.isSuffixOf nm && containsSub enDotL (nm.take (nm.length - 4))

/-- Fallback output template head. -/
def fbDotL : List Char := "fallback.".toList

/-- WebVTT suffix of the fallback glob. -/
def vttSuffixL : List Char := ".vtt".toList

/-- Name matches the fallback glob `fallback.*.vtt`. -/
def matchFbVtt (nm : List Char) : Bool :=
  fbDotL.isPrefixOf nm && vttSuffixL.isSuffixOf nm && decide (13 ≤ nm.length)

/-- Name matches the fallback glob `fallback.*.srt`. -/
def matchFbSrt (nm : List Char) : Bool :=
  fbDotL.isPrefixOf nm && srtSuffixL.isSuffixOf nm && decide (13 ≤ nm.length)

/-- Name matches the fallback cleanup glob `fallback.*`. -/
def matchFbAll (nm : List Char) : Bool := fbDotL.isPrefixOf nm

/-- `glob.glob('*.en*.srt')` in working-directory order. -/
def globEnSrt (fs : FS) : List (List Char) := (fsNames fs).filter matchEnSrt

/-- Delete every `*.en*.srt` file (the primary `finally` block, 292-300). -/
def cleanupEnSrt (fs : FS) : FS := fs.filter fun p => !matchEnSrt p.1

/-- `glob.glob('fallback.*.vtt')`. -/
def globFbVtt (fs : FS) : List (List Char) := (fsNames fs).filter matchFbVtt

/-- `glob.glob('fallback.*.srt')`. -/
def globFbSrt (fs : FS) : List (List Char) := (fsNames fs).filter matchFbSrt

/-- Candidate list of the fallback (line 356): VTT matches then SRT matches. -/
def globFallback (fs : FS) : List (List Char) := globFbVtt fs ++ globFbSrt fs

/-- Delete every `fallback.*` file (the fallback `finally` block, 413-419). -/
def cleanupFb (fs : FS) : FS := fs.filter fun p => !matchFbAll p.1

/-- Remove a list of files (the explicit cleanup loop, lines 242-248). -/
def removeAll (fs : FS) (nms : List (List Char)) : FS := nms.foldl removeName fs

/-- Ghost observation record: attempts run, fallback invocations, names of
every file created during the call, and the file picked by the fallback. -/
structure Trace where
  attemptsRun : Nat
  fallbackRuns : Nat
  created : List (List Char)
  fbSelected : Option (List Char)
deriving DecidableEq

/-- Trace after one more primary tool invocation. -/
def traceAfterRun (tr : Trace) (env : AttemptEnv) : Trace :=
  { tr with
    attemptsRun := tr.attemptsRun + 1
    created := tr.created ++ env.created.map fun p => p.1 }

/-- Result of the controller (or of the fallback): the transcript or `None`,
the final working directory, and the ghost trace. -/
structure CtrlResult where
  result : Option (List Char)
  fs : FS
  trace : Trace

/-- `429` rate-limit token (line 268). -/
def tok429L : List Char := "429".toList

/-- `too many requests` rate-limit token (line 268). -/
def tooManyL : List Char := "too many requests".toList

/-- Rate-limit test on the lowercased stderr (line 268). -/
def rateLimited (msg : List Char) : Bool :=
  containsSub tok429L msg || containsSub tooManyL msg

/-- Ghost trace on entry to the fallback invocation: one more fallback run,
and the names of the files that run created. -/
def fbEntryTrace (tr : Trace) (env : AttemptEnv) : Trace :=
  { tr with
    fallbackRuns := tr.fallbackRuns + 1
    created := tr.created ++ env.created.map fun p => p.1 }

/-- `try_fallback_mode(video_url, yt_dlp_path)` (lines 304-419): one
invocation; on success pick the first `fallback.*.vtt` / `fallback.*.srt`
match, read it, remove it, parse by extension; every path ends in the
`finally` cleanup of all `fallback.*` files.  Timeouts and process errors
return `None`. -/
def try_fallback_mode (env : AttemptEnv) (fs : FS) (tr : Trace) : CtrlResult :=
  match env.outcome with
  | .timeout =>
    ⟨none, cleanupFb (addFiles fs env.created), fbEntryTrace tr env⟩
  | .fail _ =>
    ⟨none, cleanupFb (addFiles fs env.created), fbEntryTrace tr env⟩
  | .success =>
    match globFallback (addFiles fs env.created) with
    | [] => ⟨none, cleanupFb (addFiles fs env.created), fbEntryTrace tr env⟩
    | file :: _ =>
      if (pyStrip (readFile (addFiles fs env.created) file)).isEmpty then
        ⟨none, cleanupFb (removeName (addFiles fs env.created) file),
          { fbEntryTrace tr env with fbSelected := some file }⟩
      else
        if (if srtSuffixL.isSuffixOf file then
              parseSrtL (readFile (addFiles fs env.created) file)
            else parseVttL (readFile (addFiles fs env.created) file)).isEmpty then
          ⟨none, cleanupFb (removeName (addFiles fs env.created) file),
            { fbEntryTrace tr env with fbSelected := some file }⟩
        else
          ⟨some (if srtSuffixL.isSuffixOf file then
              parseSrtL (readFile (addFiles fs env.created) file)
            else parseVttL (readFile (addFiles fs env.created) file)),
            cleanupFb (removeName (addFiles fs env.created) file),
            { fbEntryTrace tr env with fbSelected := some file }⟩

/-- `max_retries` default (line 135). -/
def maxRetries : Nat := 3

/-- Static inputs of one controller call: the URL, the global flags, the
interactive input stream, and the oracle for primary / fallback runs. -/
structure CtrlCtx where
  url : List Char
  autoMode : Bool
  inputs : List InputEvent
  envOf : Nat → AttemptEnv
  fbEnv : AttemptEnv

/-- Result of one iteration of the retry loop: move on to the next attempt,
or return from the function. -/
inductive StepOut where
  | next (fs : FS) (tr : Trace)
  | done (res : Option (List Char)) (fs : FS) (tr : Trace)

/-- Working directory carried by a loop step, whichever form it takes. -/
def stepFsOf : StepOut → FS
  | .next fs _ => fs
  | .done _ fs _ => fs

/-- One iteration of the `for attempt in range(max_retries)` body
(lines 175-300) for attempt index `k`.  Every exit of the iteration runs the
`finally` cleanup of `*.en*.srt` files.  On a rate-limited process error at
the last attempt the fallback result is returned directly. -/
def runAttempt (ctx : CtrlCtx) (k : Nat) (fs : FS) (tr : Trace) : StepOut :=
  match (ctx.envOf k).outcome with
  | .timeout =>
    .next (cleanupEnSrt (addFiles fs (ctx.envOf k).created))
      (traceAfterRun tr (ctx.envOf k))
  | .fail stderr =>
    if rateLimited (pyLower stderr) then
      if k < maxRetries - 1 then
        .next (cleanupEnSrt (addFiles fs (ctx.envOf k).created))
          (traceAfterRun tr (ctx.envOf k))
      else
        .done (try_fallback_mode ctx.fbEnv (addFiles fs (ctx.envOf k).created)
            (traceAfterRun tr (ctx.envOf k))).result
          (cleanupEnSrt (try_fallback_mode ctx.fbEnv
            (addFiles fs (ctx.envOf k).created)
            (traceAfterRun tr (ctx.envOf k))).fs)
          (try_fallback_mode ctx.fbEnv (addFiles fs (ctx.envOf k).created)
            (traceAfterRun tr (ctx.envOf k))).trace
    else
      if k < maxRetries - 1 then
        .next (cleanupEnSrt (addFiles fs (ctx.envOf k).created))
          (traceAfterRun tr (ctx.envOf k))
      else
        .done none (cleanupEnSrt (addFiles fs (ctx.envOf k).created))
          (traceAfterRun tr (ctx.envOf k))
  | .success =>
    if (globEnSrt (addFiles fs (ctx.envOf k).created)).isEmpty then
      .done none (cleanupEnSrt (addFiles fs (ctx.envOf k).created))
        (traceAfterRun tr (ctx.envOf k))
    else
      match select_best_subtitle_file (globEnSrt (addFiles fs (ctx.envOf k).created))
          ctx.url ctx.autoMode ctx.inputs with
      | .cancelled =>
        .done none (cleanupEnSrt (addFiles fs (ctx.envOf k).created))
          (traceAfterRun tr (ctx.envOf k))
      | .err =>
        .done none (cleanupEnSrt (addFiles fs (ctx.envOf k).created))
          (traceAfterRun tr (ctx.envOf k))
      | .selected f =>
        if f.isEmpty then
          .done none (cleanupEnSrt (addFiles fs (ctx.envOf k).created))
            (traceAfterRun tr (ctx.envOf k))
        else
          if (pyStrip (readFile (addFiles fs (ctx.envOf k).created) f)).isEmpty then
            .done none (cleanupEnSrt (addFiles fs (ctx.envOf k).created))
              (traceAfterRun tr (ctx.envOf k))
          else
            if (parseSrtL (readFile (addFiles fs (ctx.envOf k).created) f)).isEmpty then
              .done none
                (cleanupEnSrt (removeAll (addFiles fs (ctx.envOf k).created)
                  (globEnSrt (addFiles fs (ctx.envOf k).created))))
                (traceAfterRun tr (ctx.envOf k))
            else
              .done (some (parseSrtL (readFile (addFiles fs (ctx.envOf k).created) f)))
                (cleanupEnSrt (removeAll (addFiles fs (ctx.envOf k).created)
                  (globEnSrt (addFiles fs (ctx.envOf k).created))))
                (traceAfterRun tr (ctx.envOf k))

/-- The retry loop over the remaining attempt indices; falling off the end
of the loop returns `None` (line 302). -/
def attemptLoop (ctx : CtrlCtx) : List Nat → FS → Trace → CtrlResult
  | [], fs, tr => ⟨none, fs, tr⟩
  | k :: ks, fs, tr =>
    match runAttempt ctx k fs tr with
    | .next fs' tr' => attemptLoop ctx ks fs' tr'
    | .done res fs' tr' => ⟨res, fs', tr'⟩

/-- Trace at function entry. -/
def initTrace : Trace := ⟨0, 0, [], none⟩

/-- `get_transcript_with_yt_dlp(video_url, yt_dlp_path)` (lines 135-302). -/
def runController (ctx : CtrlCtx) (fs : FS) : CtrlResult :=
  attemptLoop ctx (List.range maxRetries) fs initTrace

/-- Working directory handed to the fallback when all three primary
attempts fail rate-limited: each failed attempt adds its created files and
then runs the `finally` cleanup, except the last one, whose `finally` runs
only after the fallback returns. -/
def fsBeforeFallback (ctx : CtrlCtx) (fs : FS) : FS :=
  addFiles
    (cleanupEnSrt (addFiles
      (cleanupEnSrt (addFiles fs (ctx.envOf 0).created))
      (ctx.envOf 1).created))
    (ctx.envOf 2).created

/-- Ghost trace at the moment the fallback is invoked in that scenario. -/
def traceBeforeFallback (ctx : CtrlCtx) : Trace :=
  traceAfterRun (traceAfterRun (traceAfterRun initTrace (ctx.envOf 0))
    (ctx.envOf 1)) (ctx.envOf 2)

/-- Backoff delay in seconds before attempt `k` (lines 178-183): attempt 0
runs immediately, attempt `k ≥ 1` waits `2 ** k + random.uniform(0, 2)`.
The jitter drawn by `random.uniform(0, 2)` is a parameter here. -/
def retryDelay (attempt : Nat) (jitter : ℚ) : ℚ :=
  if 0 < attempt then 2 ^ attempt + jitter else 0

/-! Concrete inputs used by the witness scenarios. -/

/-- Example input with tags on which the tag-stripping theorem applies. -/
def tagEx : String := "1\n00:01 --> 00:02\n<i>Hi</i> there\nplain\n"

/-- Concrete candidate containing the video id. -/
def selFileA : List Char := "sub.ABC123.en.srt".toList

/-- Concrete candidate without the video id. -/
def selFileB : List Char := "longer other name.en.srt".toList

/-- Concrete watch URL with video id `ABC123`. -/
def selUrl : List Char := "https://www.youtube.com/watch?v=ABC123&list=PL1".toList

/-- Rate-limited stderr of the witness scenarios. -/
def rlErr : List Char := "ERROR: HTTP Error 429: Too Many Requests".toList

/-- Non-rate-limit stderr of the witness scenarios. -/
def plainErr : List Char := "ERROR: no formats found".toList

/-- Fallback oracle creating one WebVTT and one SRT file. -/
def fbEnvW : AttemptEnv :=
  ⟨[("fallback.en.vtt".toList, "WEBVTT\nhello\n".toList),
    ("fallback.en.srt".toList, "1\nbye\n".toList)], .success⟩

/-- Context: every primary attempt rate-limited, fallback succeeds. -/
def ctxRL : CtrlCtx :=
  ⟨"u".toList, true, [], fun _ => ⟨[], .fail rlErr⟩, fbEnvW⟩

/-- Context: every primary attempt fails without a rate-limit signal. -/
def ctxPlain : CtrlCtx :=
  ⟨"u".toList, true, [], fun _ => ⟨[], .fail plainErr⟩, fbEnvW⟩

/-- Context: the primary run succeeds, creating one caption file. -/
def ctxOk : CtrlCtx :=
  ⟨"u".toList, true, [],
    fun _ => ⟨[("t.en.srt".toList, "1\nhi\n".toList)], .success⟩,
    ⟨[], .success⟩⟩

/-- Context: the primary run succeeds but creates no files. -/
def ctxNoFiles : CtrlCtx :=
  ⟨"u".toList, true, [], fun _ => ⟨[], .success⟩, ⟨[], .success⟩⟩

/-! ### Lemmas about the shared parser loop -/

theorem parseLinesLoop_eq (skip : List Char → Bool) :
    ∀ (ls seen : List (List Char)),
      parseLinesLoop skip ls seen = dedupFrom seen (cleanedStream skip ls)
  | [], _seen => rfl
  | l :: rest, seen => by
    simp only [parseLinesLoop, cleanedStream, List.filterMap_cons]
    by_cases hs : skip (pyStrip l) = true
    · simp only [hs, if_true]
      exact parseLinesLoop_eq skip rest seen
    · simp only [hs, if_false, Bool.false_eq_true]
      by_cases hne : pyStrip (stripTags (pyStrip l)) = []
      · simp only [hne, if_true, ne_eq, not_true_eq_false, false_and, if_false]
        exact parseLinesLoop_eq skip rest seen
      · simp only [hne, if_false, ne_eq, not_false_eq_true, true_and]
        by_cases hmem : pyStrip (stripTags (pyStrip l)) ∈ seen
        · simp only [hmem, not_true_eq_false, if_false, dedupFrom, if_pos hmem]
          exact parseLinesLoop_eq skip rest seen
        · simp only [hmem, not_false_eq_true, if_true, dedupFrom, if_neg hmem]
          exact congrArg _ (parseLinesLoop_eq skip rest _)

theorem mem_dedupFrom : ∀ (L seen : List (List Char)) (x : List Char),
    x ∈ dedupFrom seen L ↔ x ∈ L ∧ x ∉ seen
  | [], seen, x => by simp [dedupFrom]
  | c :: rest, seen, x => by
    by_cases hc : c ∈ seen
    · rw [dedupFrom, if_pos hc, mem_dedupFrom rest seen x]
      simp only [List.mem_cons]
      constructor
      · exact fun h => ⟨Or.inr h.1, h.2⟩
      · rintro ⟨rfl | hx, hns⟩
        · exact absurd hc hns
        · exact ⟨hx, hns⟩
    · rw [dedupFrom, if_neg hc]
      simp only [List.mem_cons, mem_dedupFrom rest (c :: seen) x, List.mem_cons]
      constructor
      · rintro (rfl | ⟨hx, hns⟩)
        · exact ⟨Or.inl rfl, hc⟩
        · exact ⟨Or.inr hx, fun h => hns (Or.inr h)⟩
      · rintro ⟨rfl | hx, hns⟩
        · exact Or.inl rfl
        · by_cases hxc : x = c
          · exact Or.inl hxc
          · exact Or.inr ⟨hx, fun h => h.elim hxc hns⟩

theorem nodup_dedupFrom : ∀ (L seen : List (List Char)), (dedupFrom seen L).Nodup
  | [], _ => List.nodup_nil
  | c :: rest, seen => by
    by_cases hc : c ∈ seen
    · rw [dedupFrom, if_pos hc]
      exact nodup_dedupFrom rest seen
    · rw [dedupFrom, if_neg hc]
      refine List.nodup_cons.mpr ⟨?_, nodup_dedupFrom rest (c :: seen)⟩
      intro hmem
      exact ((mem_dedupFrom rest (c :: seen) c).1 hmem).2 (List.mem_cons_self c seen)

theorem firstIdx_cons_self (x : List Char) (ys : List (List Char)) :
    firstIdx x (x :: ys) = 0 := by
  simp [firstIdx]

theorem firstIdx_cons_ne (x y : List Char) (ys : List (List Char)) (h : ¬ y = x) :
    firstIdx x (y :: ys) = firstIdx x ys + 1 := by
  simp [firstIdx, h]

theorem pairwise_dedupFrom : ∀ (L seen : List (List Char)),
    (dedupFrom seen L).Pairwise fun a b => firstIdx a L < firstIdx b L
  | [], _ => List.Pairwise.nil
  | c :: rest, seen => by
    by_cases hc : c ∈ seen
    · rw [dedupFrom, if_pos hc]
      refine (pairwise_dedupFrom rest seen).imp_of_mem ?_
      intro a b ha hb hab
      have hane : ¬ c = a := fun h =>
        ((mem_dedupFrom rest seen a).1 ha).2 (h ▸ hc)
      have hbne : ¬ c = b := fun h =>
        ((mem_dedupFrom rest seen b).1 hb).2 (h ▸ hc)
      rw [firstIdx_cons_ne a c rest hane, firstIdx_cons_ne b c rest hbne]
      exact Nat.succ_lt_succ hab
    · rw [dedupFrom, if_neg hc]
      refine List.pairwise_cons.mpr ⟨?_, ?_⟩
      · intro b hb
        have hbmem := (mem_dedupFrom rest (c :: seen) b).1 hb
        have hbne : ¬ c = b := fun h => hbmem.2 (h ▸ List.mem_cons_self c seen)
        rw [firstIdx_cons_self, firstIdx_cons_ne b c rest hbne]
        exact Nat.succ_pos _
      · refine (pairwise_dedupFrom rest (c :: seen)).imp_of_mem ?_
        intro a b ha hb hab
        have hane : ¬ c = a := fun h =>
          ((mem_dedupFrom rest (c :: seen) a).1 ha).2 (h ▸ List.mem_cons_self c seen)
        have hbne : ¬ c = b := fun h =>
          ((mem_dedupFrom rest (c :: seen) b).1 hb).2 (h ▸ List.mem_cons_self c seen)
        rw [firstIdx_cons_ne a c rest hane, firstIdx_cons_ne b c rest hbne]
        exact Nat.succ_lt_succ hab

/-- C1: for every input, `parse_srt` and `parse_vtt` keep each distinct
cleaned line at most once (`Nodup`), keep exactly the cleaned lines of the
input in first-occurrence order (membership equality plus strictly
increasing first-occurrence indices), and join the kept lines with a single
space; and on the two-cue SRT text whose cues both read `Hello world` the
result is exactly `Hello world`. -/
theorem parsers_dedup_first_occurrence :
    (∀ s : String,
      (srtOut s).Nodup ∧
      (∀ x, x ∈ srtOut s ↔ x ∈ srtStream s) ∧
      (srtOut s).Pairwise
        (fun a b => firstIdx a (srtStream s) < firstIdx b (srtStream s)) ∧
      parse_srt s = String.mk (joinSpace (srtOut s))) ∧
    (∀ s : String,
      (vttOut s).Nodup ∧
      (∀ x, x ∈ vttOut s ↔ x ∈ vttStream s) ∧
      (vttOut s).Pairwise
        (fun a b => firstIdx a (vttStream s) < firstIdx b (vttStream s)) ∧
      parse_vtt s = String.mk (joinSpace (vttOut s))) ∧
    parse_srt twoCueSrt = "Hello world" := by
  refine ⟨fun s => ?_, fun s => ?_, by decide⟩
  · have he : srtOut s = dedupFrom [] (srtStream s) :=
      parseLinesLoop_eq srtSkip (srtLines s) []
    refine ⟨he ▸ nodup_dedupFrom (srtStream s) [], ?_, he ▸ pairwise_dedupFrom (srtStream s) [], rfl⟩
    intro x
    rw [he, mem_dedupFrom]
    simp
  · have he : vttOut s = dedupFrom [] (vttStream s) :=
      parseLinesLoop_eq vttSkip (vttLines s) []
    refine ⟨he ▸ nodup_dedupFrom (vttStream s) [], ?_, he ▸ pairwise_dedupFrom (vttStream s) [], rfl⟩
    intro x
    rw [he, mem_dedupFrom]
    simp

/-! ### Character-level facts about splitting, stripping and joining -/

theorem mem_splitOnChar_ne (sep : Char) :
    ∀ (s l : List Char), l ∈ splitOnChar sep s → ∀ x ∈ l, ¬ x = sep
  | [], l, hl => by
    simp only [splitOnChar, List.mem_singleton] at hl
    subst hl; intro x hx; cases hx
  | c :: rest, l, hl => by
    by_cases hc : c = sep
    · rw [splitOnChar, if_pos hc] at hl
      rcases List.mem_cons.1 hl with rfl | hl'
      · intro x hx; cases hx
      · exact mem_splitOnChar_ne sep rest l hl'
    · rw [splitOnChar, if_neg hc] at hl
      cases hsp : splitOnChar sep rest with
      | nil =>
        rw [hsp] at hl
        simp only [List.mem_singleton] at hl
        subst hl
        intro x hx
        rcases List.mem_singleton.1 hx with rfl
        exact hc
      | cons h t =>
        rw [hsp] at hl
        rcases List.mem_cons.1 hl with rfl | hl'
        · intro x hx
          rcases List.mem_cons.1 hx with rfl | hx'
          · exact hc
          · exact mem_splitOnChar_ne sep rest h (hsp ▸ List.mem_cons_self h t) x hx'
        · exact mem_splitOnChar_ne sep rest l (hsp ▸ List.mem_cons_of_mem h hl')

theorem mem_dropWs : ∀ (l : List Char) (x : Char), x ∈ dropWs l → x ∈ l
  | [], _, hx => by rw [dropWs] at hx; cases hx
  | c :: rest, x, hx => by
    rw [dropWs] at hx
    by_cases hc : isPyWs c = true
    · rw [if_pos hc] at hx
      exact List.mem_cons_of_mem c (mem_dropWs rest x hx)
    · rwa [if_neg hc] at hx

theorem head?_dropWs : ∀ (l : List Char) (c : Char),
    (dropWs l).head? = some c → isPyWs c = false
  | [], _, h => by cases h
  | a :: rest, c, h => by
    rw [dropWs] at h
    by_cases ha : isPyWs a = true
    · rw [if_pos ha] at h
      exact head?_dropWs rest c h
    · rw [if_neg ha] at h
      cases h
      exact Bool.eq_false_iff.mpr ha

theorem dropWs_suffix : ∀ (l : List Char), dropWs l <:+ l
  | [] => List.suffix_refl []
  | c :: rest => by
    rw [dropWs]
    by_cases hc : isPyWs c = true
    · rw [if_pos hc]
      exact (dropWs_suffix rest).trans (List.suffix_cons c rest)
    · rw [if_neg hc]

theorem dropWs_eq_self (l : List Char)
    (h : ∀ c, l.head? = some c → isPyWs c = false) : dropWs l = l := by
  cases l with
  | nil => rfl
  | cons c rest =>
    rw [dropWs, if_neg]
    rw [h c rfl]
    simp

theorem mem_pyStrip (l : List Char) (x : Char) (hx : x ∈ pyStrip l) : x ∈ l := by
  rw [pyStrip] at hx
  rw [List.mem_reverse] at hx
  have hx2 := mem_dropWs _ x hx
  rw [List.mem_reverse] at hx2
  exact mem_dropWs l x hx2

theorem head?_pyStrip (l : List Char) (c : Char)
    (h : (pyStrip l).head? = some c) : isPyWs c = false := by
  rw [pyStrip, List.head?_reverse] at h
  obtain ⟨w, hw⟩ := dropWs_suffix (dropWs l).reverse
  cases hz : dropWs (dropWs l).reverse with
  | nil => rw [hz] at h; cases h
  | cons z zs =>
    rw [hz] at hw h
    have hy : ((dropWs l).reverse).getLast? = some c := by
      rw [← hw, List.getLast?_append_of_ne_nil w (List.cons_ne_nil z zs)]
      exact h
    rw [List.getLast?_reverse] at hy
    exact head?_dropWs l c hy

theorem getLast?_pyStrip (l : List Char) (c : Char)
    (h : (pyStrip l).getLast? = some c) : isPyWs c = false := by
  rw [pyStrip, List.getLast?_reverse] at h
  exact head?_dropWs (dropWs l).reverse c h

theorem pyStrip_eq_self (l : List Char)
    (hh : ∀ c, l.head? = some c → isPyWs c = false)
    (hl : ∀ c, l.getLast? = some c → isPyWs c = false) : pyStrip l = l := by
  rw [pyStrip, dropWs_eq_self l hh, dropWs_eq_self l.reverse, List.reverse_reverse]
  intro c hc
  rw [List.head?_reverse] at hc
  exact hl c hc

theorem mem_stripTagsAux : ∀ (l : List Char) (st : Option (List Char)) (x : Char),
    x ∈ stripTagsAux l st → x ∈ l ∨ ∃ buf, st = some buf ∧ x ∈ buf
  | [], none, x, hx => by rw [stripTagsAux] at hx; cases hx
  | [], some buf, x, hx => by
    rw [stripTagsAux] at hx
    exact Or.inr ⟨buf, rfl, List.mem_reverse.1 hx⟩
  | c :: rest, none, x, hx => by
    rw [stripTagsAux] at hx
    by_cases hc : c = '<'
    · rw [if_pos hc] at hx
      rcases mem_stripTagsAux rest (some ['<']) x hx with h | ⟨buf, hbuf, hxb⟩
      · exact Or.inl (List.mem_cons_of_mem c h)
      · cases hbuf
        rcases List.mem_singleton.1 hxb with rfl
        exact Or.inl (hc ▸ List.mem_cons_self c rest)
    · rw [if_neg hc] at hx
      rcases List.mem_cons.1 hx with rfl | hx'
      · exact Or.inl (List.mem_cons_self x rest)
      · rcases mem_stripTagsAux rest none x hx' with h | ⟨buf, hbuf, _⟩
        · exact Or.inl (List.mem_cons_of_mem c h)
        · cases hbuf
  | c :: rest, some buf, x, hx => by
    rw [stripTagsAux] at hx
    by_cases hc : c = '>'
    · rw [if_pos hc] at hx
      by_cases hb : buf = ['<']
      · rw [if_pos hb] at hx
        rcases List.mem_cons.1 hx with rfl | hx'
        · exact Or.inr ⟨buf, rfl, hb ▸ List.mem_singleton.2 rfl⟩
        · rcases List.mem_cons.1 hx' with rfl | hx''
          · exact Or.inl (hc ▸ List.mem_cons_self c rest)
          · rcases mem_stripTagsAux rest none x hx'' with h | ⟨b2, hb2, _⟩
            · exact Or.inl (List.mem_cons_of_mem c h)
            · cases hb2
      · rw [if_neg hb] at hx
        rcases mem_stripTagsAux rest none x hx with h | ⟨b2, hb2, _⟩
        · exact Or.inl (List.mem_cons_of_mem c h)
        · cases hb2
    · rw [if_neg hc] at hx
      rcases mem_stripTagsAux rest (some (c :: buf)) x hx with h | ⟨b2, hb2, hxb⟩
      · exact Or.inl (List.mem_cons_of_mem c h)
      · cases hb2
        rcases List.mem_cons.1 hxb with rfl | hxb'
        · exact Or.inl (List.mem_cons_self x rest)
        · exact Or.inr ⟨buf, rfl, hxb'⟩

theorem mem_stripTags (l : List Char) (x : Char) (hx : x ∈ stripTags l) : x ∈ l := by
  rcases mem_stripTagsAux l none x hx with h | ⟨buf, hbuf, _⟩
  · exact h
  · cases hbuf

theorem mem_cleanedStream (skip : List Char → Bool) (ls : List (List Char))
    (x : List Char) (h : x ∈ cleanedStream skip ls) :
    ¬ x = [] ∧ ∃ l ∈ ls, x = pyStrip (stripTags (pyStrip l)) := by
  rw [cleanedStream, List.mem_filterMap] at h
  obtain ⟨l, hl, hf⟩ := h
  simp only at hf
  by_cases hs : skip (pyStrip l) = true
  · rw [if_pos hs] at hf; cases hf
  · rw [if_neg hs] at hf
    by_cases hne : pyStrip (stripTags (pyStrip l)) = []
    · rw [if_pos hne] at hf; cases hf
    · rw [if_neg hne] at hf
      cases hf
      exact ⟨hne, l, hl, rfl⟩

theorem mem_joinSpace : ∀ (ps : List (List Char)) (x : Char),
    x ∈ joinSpace ps → x = ' ' ∨ ∃ p ∈ ps, x ∈ p
  | [], _, hx => by rw [joinSpace] at hx; cases hx
  | [l], x, hx => Or.inr ⟨l, List.mem_singleton.2 rfl, hx⟩
  | l :: l' :: ls, x, hx => by
    rw [joinSpace] at hx
    rcases List.mem_append.1 hx with h | h
    · exact Or.inr ⟨l, List.mem_cons_self l _, h⟩
    · rcases List.mem_cons.1 h with rfl | h'
      · exact Or.inl rfl
      · rcases mem_joinSpace (l' :: ls) x h' with h'' | ⟨p, hp, hxp⟩
        · exact Or.inl h''
        · exact Or.inr ⟨p, List.mem_cons_of_mem l hp, hxp⟩

theorem joinSpace_ne_nil : ∀ (ps : List (List Char)),
    (∀ p ∈ ps, ¬ p = []) → ps ≠ [] → joinSpace ps ≠ []
  | [], _, hne => absurd rfl hne
  | [l], hp, _ => by
    rw [joinSpace]
    exact hp l (List.mem_singleton.2 rfl)
  | l :: l' :: ls, hp, _ => by
    rw [joinSpace]
    intro hcon
    rcases List.append_eq_nil.1 hcon with ⟨hl, _⟩
    exact hp l (List.mem_cons_self l _) hl

theorem head?_joinSpace : ∀ (ps : List (List Char)),
    (∀ p ∈ ps, ¬ p = []) → ∀ c, (joinSpace ps).head? = some c →
      ∃ p ∈ ps, p.head? = some c
  | [], _, c, hc => by cases hc
  | [l], _, c, hc => ⟨l, List.mem_singleton.2 rfl, hc⟩
  | l :: l' :: ls, hp, c, hc => by
    rw [joinSpace, List.head?_append_of_ne_nil l (hp l (List.mem_cons_self l _))] at hc
    exact ⟨l, List.mem_cons_self l _, hc⟩

theorem getLast?_joinSpace : ∀ (ps : List (List Char)),
    (∀ p ∈ ps, ¬ p = []) → ∀ c, (joinSpace ps).getLast? = some c →
      ∃ p ∈ ps, p.getLast? = some c
  | [], _, c, hc => by cases hc
  | [l], _, c, hc => ⟨l, List.mem_singleton.2 rfl, hc⟩
  | l :: l' :: ls, hp, c, hc => by
    rw [joinSpace,
      List.getLast?_append_of_ne_nil l (List.cons_ne_nil ' ' (joinSpace (l' :: ls)))] at hc
    have hj : joinSpace (l' :: ls) ≠ [] :=
      joinSpace_ne_nil (l' :: ls) (fun p hp' => hp p (List.mem_cons_of_mem l hp'))
        (List.cons_ne_nil l' ls)
    cases hz : joinSpace (l' :: ls) with
    | nil => exact absurd hz hj
    | cons z zs =>
      rw [hz, List.getLast?_cons_cons] at hc
      have := getLast?_joinSpace (l' :: ls)
        (fun p hp' => hp p (List.mem_cons_of_mem l hp')) c (by rw [hz]; exact hc)
      obtain ⟨p, hpmem, hpl⟩ := this
      exact ⟨p, List.mem_cons_of_mem l hpmem, hpl⟩

/-! ### The output of both parsers is a single trimmed line -/

theorem stream_piece_good (skip : List Char → Bool) (raws : List (List Char))
    (hraw : ∀ l ∈ raws, ∀ x ∈ l, ¬ x = '\n') (p : List Char)
    (hp : p ∈ cleanedStream skip raws) :
    ¬ p = [] ∧ (∀ x ∈ p, ¬ x = '\n') ∧
      (∀ c, p.head? = some c → isPyWs c = false) ∧
      (∀ c, p.getLast? = some c → isPyWs c = false) := by
  obtain ⟨hne, l, hl, heq⟩ := mem_cleanedStream skip raws p hp
  refine ⟨hne, ?_, ?_, ?_⟩
  · intro x hx
    have : x ∈ l := mem_pyStrip l x (mem_stripTags _ x (mem_pyStrip _ x (heq ▸ hx)))
    exact hraw l hl x this
  · intro c hc
    exact head?_pyStrip _ c (heq ▸ hc)
  · intro c hc
    exact getLast?_pyStrip _ c (heq ▸ hc)

theorem out_sub_stream (skip : List Char → Bool) (raws : List (List Char))
    (p : List Char) (hp : p ∈ parseLinesLoop skip raws []) :
    p ∈ cleanedStream skip raws := by
  rw [parseLinesLoop_eq skip raws []] at hp
  exact ((mem_dedupFrom (cleanedStream skip raws) [] p).1 hp).1

theorem loop_output_trimmed (skip : List Char → Bool) (raws : List (List Char))
    (hraw : ∀ l ∈ raws, ∀ x ∈ l, ¬ x = '\n') :
    (joinSpace (parseLinesLoop skip raws [])).contains '\n' = false ∧
      pyStrip (joinSpace (parseLinesLoop skip raws [])) =
        joinSpace (parseLinesLoop skip raws []) := by
  have hpieces : ∀ p ∈ parseLinesLoop skip raws [], ¬ p = [] := fun p hp =>
    (stream_piece_good skip raws hraw p (out_sub_stream skip raws p hp)).1
  constructor
  · have hnot : '\n' ∉ joinSpace (parseLinesLoop skip raws []) := by
      intro hmem
      rcases mem_joinSpace _ '\n' hmem with h | ⟨p, hp, hxp⟩
      · cases h
      · exact (stream_piece_good skip raws hraw p
          (out_sub_stream skip raws p hp)).2.1 '\n' hxp rfl
    simpa using hnot
  · refine pyStrip_eq_self _ ?_ ?_
    · intro c hc
      obtain ⟨p, hp, hph⟩ := head?_joinSpace _ hpieces c hc
      exact (stream_piece_good skip raws hraw p
        (out_sub_stream skip raws p hp)).2.2.1 c hph
    · intro c hc
      obtain ⟨p, hp, hpl⟩ := getLast?_joinSpace _ hpieces c hc
      exact (stream_piece_good skip raws hraw p
        (out_sub_stream skip raws p hp)).2.2.2 c hpl

/-- C10: for every input string, the output of `parse_srt` / `parse_vtt`
contains no newline character and is its own `strip`: the transcript is a
single trimmed (possibly empty) line. -/
theorem parser_output_single_trimmed_line (s : String) :
    ((parse_srt s).toList.contains '\n' = false ∧
      pyStrip (parse_srt s).toList = (parse_srt s).toList) ∧
    ((parse_vtt s).toList.contains '\n' = false ∧
      pyStrip (parse_vtt s).toList = (parse_vtt s).toList) := by
  constructor
  · exact loop_output_trimmed srtSkip (srtLines s)
      (fun l hl x hx => mem_splitOnChar_ne '\n' (pyStrip s.toList) l hl x hx)
  · exact loop_output_trimmed vttSkip (vttLines s)
      (fun l hl x hx => mem_splitOnChar_ne '\n' s.toList l hl x hx)

/-! ### Tag stripping -/

theorem lt_notMem_stripTagsAux : ∀ (l : List Char) (b : Option Bool)
    (bl : Option (List Char)),
    (match b, bl with
     | none, none => True
     | some b0, some bl0 => ¬ bl0 = [] ∧ (b0 = false ↔ bl0 = ['<'])
     | _, _ => False) →
    tagsClosedAux l b = true → '<' ∉ stripTagsAux l bl
  | [], none, none, _, _ => by rw [stripTagsAux]; intro hx; cases hx
  | [], some b0, some bl0, _, hc => by rw [tagsClosedAux] at hc; cases hc
  | [], none, some _, hal, _ => hal.elim
  | [], some _, none, hal, _ => hal.elim
  | c :: rest, none, some _, hal, _ => hal.elim
  | c :: rest, some _, none, hal, _ => hal.elim
  | c :: rest, none, none, _, hc => by
    rw [tagsClosedAux] at hc
    rw [stripTagsAux]
    by_cases h : c = '<'
    · rw [if_pos h] at hc ⊢
      exact lt_notMem_stripTagsAux rest (some false) (some ['<'])
        ⟨List.cons_ne_nil '<' [], by simp⟩ hc
    · rw [if_neg h] at hc ⊢
      intro hx
      rcases List.mem_cons.1 hx with he | hx'
      · exact h he.symm
      · exact lt_notMem_stripTagsAux rest none none trivial hc hx'
  | c :: rest, some b0, some bl0, hal, hc => by
    obtain ⟨hne, hiff⟩ := hal
    rw [tagsClosedAux] at hc
    rw [stripTagsAux]
    by_cases h : c = '>'
    · rw [if_pos h] at hc ⊢
      rcases Bool.and_eq_true_iff.1 hc with ⟨hb0, hrest⟩
      have hbl : ¬ bl0 = ['<'] := fun hb => by
        rw [hiff.2 hb] at hb0; cases hb0
      rw [if_neg hbl]
      exact lt_notMem_stripTagsAux rest none none trivial hrest
    · rw [if_neg h] at hc ⊢
      refine lt_notMem_stripTagsAux rest (some true) (some (c :: bl0)) ⟨?_, ?_⟩ hc
      · exact List.cons_ne_nil c bl0
      · constructor
        · intro hcon; cases hcon
        · intro hcon
          rcases List.cons_eq_cons.1 hcon with ⟨_, hbl0⟩
          exact absurd hbl0 hne

theorem lt_notMem_stripTags (l : List Char) (h : tagsClosed l = true) :
    '<' ∉ stripTags l :=
  lt_notMem_stripTagsAux l none none trivial h

theorem hasTagAux_eq_false (l : List Char) (hl : '<' ∉ l) :
    hasTagAux l none = false := by
  induction l with
  | nil => rfl
  | cons c rest ih =>
    rw [hasTagAux, if_neg fun h => hl (by rw [← h]; exact List.mem_cons_self c rest)]
    exact ih fun h => hl (List.mem_cons_of_mem c h)

theorem loop_output_no_tag (skip : List Char → Bool) (raws : List (List Char))
    (hraw : ∀ l ∈ raws, tagsClosed (pyStrip l) = true) :
    hasTag (joinSpace (parseLinesLoop skip raws [])) = false := by
  refine hasTagAux_eq_false _ ?_
  intro hmem
  rcases mem_joinSpace _ '<' hmem with h | ⟨p, hp, hxp⟩
  · cases h
  · obtain ⟨_, l, hl, heq⟩ :=
      mem_cleanedStream skip raws p (out_sub_stream skip raws p hp)
    exact lt_notMem_stripTags (pyStrip l) (hraw l hl)
      (mem_pyStrip _ '<' (heq ▸ hxp))

/-- C8: for every well-formed input — every line's stripped text closes all
its inline tags — no substring of the output of `parse_srt` or `parse_vtt`
matches the inline-markup shape `<[^>]+>`. -/
theorem tag_stripping (s : String)
    (h1 : ∀ l ∈ srtLines s, tagsClosed (pyStrip l) = true)
    (h2 : ∀ l ∈ vttLines s, tagsClosed (pyStrip l) = true) :
    hasTag (parse_srt s).toList = false ∧ hasTag (parse_vtt s).toList = false :=
  ⟨loop_output_no_tag srtSkip (srtLines s) h1,
    loop_output_no_tag vttSkip (vttLines s) h2⟩

/-- Witness for the tag-stripping theorem at a concrete well-formed input. -/
theorem tag_stripping_witness :
    hasTag (parse_srt tagEx).toList = false ∧
      hasTag (parse_vtt tagEx).toList = false :=
  tag_stripping tagEx (by decide) (by decide)

/-! ### File selector -/

theorem find?_of_filter_eq_singleton (p : List Char → Bool) :
    ∀ (l : List (List Char)) (f : List Char),
      l.filter p = [f] → l.find? p = some f
  | [], f, h => by cases h
  | a :: rest, f, h => by
    by_cases ha : p a = true
    · rw [List.filter_cons_of_pos ha] at h
      obtain ⟨rfl, _⟩ := List.cons_eq_cons.1 h
      exact List.find?_cons_of_pos rest ha
    · rw [List.filter_cons_of_neg (by simpa using ha)] at h
      rw [List.find?_cons_of_neg rest (by simpa using ha)]
      exact find?_of_filter_eq_singleton p rest f h

/-- C4: `select` on a one-element candidate list returns that candidate
immediately; on a larger candidate list, when the URL yields a (nonempty)
video id and exactly one candidate's filename contains it, that candidate is
returned — independent of the auto flag and of any interactive input. -/
theorem selector_single_and_id_match :
    (∀ (f url : List Char) (auto : Bool) (inputs : List InputEvent),
      select_best_subtitle_file [f] url auto inputs = .selected f) ∧
    (∀ (files : List (List Char)) (url : List Char) (auto : Bool)
      (inputs : List InputEvent) (vid f : List Char),
      ¬ files.length = 1 →
      extract_video_id url = some vid →
      ¬ vid = [] →
      files.filter (fun g => containsSub vid g) = [f] →
      select_best_subtitle_file files url auto inputs = .selected f) := by
  constructor
  · intro f url auto inputs
    rw [select_best_subtitle_file, if_pos (by simp)]
    rfl
  · intro files url auto inputs vid f hlen hvid hne hfil
    rw [select_best_subtitle_file, if_neg hlen]
    simp only [hvid, ne_eq, hne, not_false_eq_true, if_true,
      find?_of_filter_eq_singleton (fun g => containsSub vid g) files f hfil]

/-- Witness for the selector theorem at concrete inputs. -/
theorem selector_single_and_id_match_witness :
    select_best_subtitle_file [selFileA] selUrl false [] =
        SelOutcome.selected selFileA ∧
      select_best_subtitle_file [selFileB, selFileA] selUrl false [] =
        SelOutcome.selected selFileA :=
  ⟨selector_single_and_id_match.1 selFileA selUrl false [],
    selector_single_and_id_match.2 [selFileB, selFileA] selUrl false []
      ("ABC123".toList) selFileA (by decide) (by decide) (by decide) (by decide)⟩

/-! ### Backoff delay -/

/-- C7: attempt 0 of the primary loop runs with no delay; the delay before
retry attempt `k ≥ 1` is `2 ^ k` seconds plus the jitter drawn from
`[0, 2)`, hence always at least `2 ^ k` seconds. -/
theorem backoff_delay (k : Nat) (j : ℚ) (hk : 1 ≤ k) (h0 : 0 ≤ j)
    (h2 : j < 2) :
    retryDelay 0 j = 0 ∧ retryDelay k j = 2 ^ k + j ∧
      (2 : ℚ) ^ k ≤ retryDelay k j := by
  have hpos : 0 < k := hk
  have heq : retryDelay k j = 2 ^ k + j := by rw [retryDelay, if_pos hpos]
  refine ⟨by rw [retryDelay, if_neg (by omega)], heq, ?_⟩
  rw [heq]
  linarith

/-- Witness for the backoff theorem at `k = 1`, `j = 1/2`. -/
theorem backoff_delay_witness :
    retryDelay 0 (1 / 2) = 0 ∧ retryDelay 1 (1 / 2) = 2 ^ 1 + 1 / 2 ∧
      (2 : ℚ) ^ 1 ≤ retryDelay 1 (1 / 2) :=
  backoff_delay 1 (1 / 2) (le_refl 1) (by norm_num) (by norm_num)

/-! ### Filesystem and fallback facts -/

theorem fsNames_cleanupFb_no (fs : FS) (nm : List Char)
    (h : nm ∈ fsNames (cleanupFb fs)) : matchFbAll nm = false := by
  rw [fsNames, cleanupFb] at h
  obtain ⟨p, hp, rfl⟩ := List.mem_map.1 h
  have := (List.mem_filter.1 hp).2
  simpa using this

theorem fsNames_cleanupEnSrt_no (fs : FS) (nm : List Char)
    (h : nm ∈ fsNames (cleanupEnSrt fs)) : matchEnSrt nm = false := by
  rw [fsNames, cleanupEnSrt] at h
  obtain ⟨p, hp, rfl⟩ := List.mem_map.1 h
  have := (List.mem_filter.1 hp).2
  simpa using this

theorem fsNames_cleanupEnSrt_sub (fs : FS) (nm : List Char)
    (h : nm ∈ fsNames (cleanupEnSrt fs)) : nm ∈ fsNames fs := by
  rw [fsNames, cleanupEnSrt] at h
  obtain ⟨p, hp, rfl⟩ := List.mem_map.1 h
  exact List.mem_map.2 ⟨p, (List.mem_filter.1 hp).1, rfl⟩

theorem fb_trace_shape (env : AttemptEnv) (fs : FS) (tr : Trace) :
    (try_fallback_mode env fs tr).trace.fallbackRuns = tr.fallbackRuns + 1 ∧
      (try_fallback_mode env fs tr).trace.created =
        tr.created ++ env.created.map fun p => p.1 := by
  rw [try_fallback_mode]
  repeat' split
  all_goals exact ⟨rfl, rfl⟩

theorem fb_fs_clean (env : AttemptEnv) (fs : FS) (tr : Trace) :
    ∀ nm ∈ fsNames (try_fallback_mode env fs tr).fs, matchFbAll nm = false := by
  rw [try_fallback_mode]
  repeat' split
  all_goals exact fun nm hnm => fsNames_cleanupFb_no _ nm hnm

theorem fb_selected_head (env : AttemptEnv) (fs : FS) (tr : Trace)
    (file : List Char) (rest : List (List Char))
    (hout : env.outcome = RunOutcome.success)
    (hg : globFallback (addFiles fs env.created) = file :: rest) :
    (try_fallback_mode env fs tr).trace.fbSelected = some file := by
  rw [try_fallback_mode]
  rw [hout]
  simp only [hg]
  repeat' split
  all_goals rfl

theorem fb_result_of_nonempty (env : AttemptEnv) (fs : FS) (tr : Trace)
    (file : List Char) (rest : List (List Char))
    (hout : env.outcome = RunOutcome.success)
    (hg : globFallback (addFiles fs env.created) = file :: rest)
    (hne : (pyStrip (readFile (addFiles fs env.created) file)).isEmpty = false) :
    (try_fallback_mode env fs tr).result =
      (if (if srtSuffixL.isSuffixOf file then
            parseSrtL (readFile (addFiles fs env.created) file)
          else parseVttL (readFile (addFiles fs env.created) file)).isEmpty then
        none
      else
        some (if srtSuffixL.isSuffixOf file then
            parseSrtL (readFile (addFiles fs env.created) file)
          else parseVttL (readFile (addFiles fs env.created) file))) := by
  rw [try_fallback_mode]
  rw [hout]
  simp only [hg, hne, Bool.false_eq_true, if_false]
  repeat' split
  all_goals rfl

/-! ### Facts about one loop iteration -/

theorem traceAfterRun_created_all (tr : Trace) (env : AttemptEnv)
    (hin : ∀ nm ∈ tr.created, matchEnSrt nm = true)
    (hp : ∀ p ∈ env.created, matchEnSrt p.1 = true) :
    ∀ nm ∈ (traceAfterRun tr env).created, matchEnSrt nm = true := by
  intro nm hnm
  rcases List.mem_append.1 hnm with h | h
  · exact hin nm h
  · obtain ⟨p, hpmem, rfl⟩ := List.mem_map.1 h
    exact hp p hpmem

theorem runAttempt_fs_clean (ctx : CtrlCtx) (k : Nat) (fs : FS) (tr : Trace) :
    ∀ nm ∈ fsNames (stepFsOf (runAttempt ctx k fs tr)), matchEnSrt nm = false := by
  rw [runAttempt]
  repeat' split
  all_goals exact fun nm hnm => fsNames_cleanupEnSrt_no _ nm hnm

theorem runAttempt_next_created (ctx : CtrlCtx) (k : Nat) (fs : FS) (tr : Trace)
    (fs' : FS) (tr' : Trace)
    (hstep : runAttempt ctx k fs tr = StepOut.next fs' tr')
    (hin : ∀ nm ∈ tr.created, matchEnSrt nm = true)
    (hp : ∀ p ∈ (ctx.envOf k).created, matchEnSrt p.1 = true) :
    ∀ nm ∈ tr'.created, matchEnSrt nm = true := by
  rw [runAttempt] at hstep
  repeat' split at hstep
  all_goals cases hstep
  all_goals exact traceAfterRun_created_all tr (ctx.envOf k) hin hp

theorem runAttempt_done_created (ctx : CtrlCtx) (k : Nat) (fs : FS) (tr : Trace)
    (res : Option (List Char)) (fs' : FS) (tr' : Trace)
    (hstep : runAttempt ctx k fs tr = StepOut.done res fs' tr')
    (hin : ∀ nm ∈ tr.created, matchEnSrt nm = true)
    (hp : ∀ p ∈ (ctx.envOf k).created, matchEnSrt p.1 = true)
    (hf : ∀ p ∈ ctx.fbEnv.created, matchFbAll p.1 = true) :
    ∀ nm ∈ tr'.created,
      matchEnSrt nm = true ∨
        (matchFbAll nm = true ∧ ∀ m ∈ fsNames fs', matchFbAll m = false) := by
  rw [runAttempt] at hstep
  repeat' split at hstep
  all_goals cases hstep
  all_goals try
    exact fun nm hnm =>
      Or.inl (traceAfterRun_created_all tr (ctx.envOf k) hin hp nm hnm)
  intro nm hnm
  rw [(fb_trace_shape ctx.fbEnv (addFiles fs (ctx.envOf k).created)
    (traceAfterRun tr (ctx.envOf k))).2] at hnm
  rcases List.mem_append.1 hnm with h | h
  · exact Or.inl (traceAfterRun_created_all tr (ctx.envOf k) hin hp nm h)
  · obtain ⟨p, hpmem, rfl⟩ := List.mem_map.1 h
    refine Or.inr ⟨hf p hpmem, ?_⟩
    intro m hm
    exact fb_fs_clean ctx.fbEnv _ _ m (fsNames_cleanupEnSrt_sub _ m hm)

theorem attemptLoop_cons_next (ctx : CtrlCtx) (k : Nat) (ks : List Nat)
    (fs : FS) (tr : Trace) (fs' : FS) (tr' : Trace)
    (hs : runAttempt ctx k fs tr = StepOut.next fs' tr') :
    attemptLoop ctx (k :: ks) fs tr = attemptLoop ctx ks fs' tr' := by
  rw [attemptLoop, hs]

theorem attemptLoop_cons_done (ctx : CtrlCtx) (k : Nat) (ks : List Nat)
    (fs : FS) (tr : Trace) (res : Option (List Char)) (fs' : FS) (tr' : Trace)
    (hs : runAttempt ctx k fs tr = StepOut.done res fs' tr') :
    attemptLoop ctx (k :: ks) fs tr = ⟨res, fs', tr'⟩ := by
  rw [attemptLoop, hs]

theorem attemptLoop_fs_clean (ctx : CtrlCtx) :
    ∀ (ks : List Nat) (k : Nat) (fs : FS) (tr : Trace),
      ∀ nm ∈ fsNames (attemptLoop ctx (k :: ks) fs tr).fs, matchEnSrt nm = false
  | [], k, fs, tr => by
    cases hs : runAttempt ctx k fs tr with
    | next fs' tr' =>
      rw [attemptLoop_cons_next ctx k [] fs tr fs' tr' hs]
      intro nm hnm
      have h := runAttempt_fs_clean ctx k fs tr
      rw [hs] at h
      exact h nm hnm
    | done res fs' tr' =>
      rw [attemptLoop_cons_done ctx k [] fs tr res fs' tr' hs]
      intro nm hnm
      have h := runAttempt_fs_clean ctx k fs tr
      rw [hs] at h
      exact h nm hnm
  | k' :: ks, k, fs, tr => by
    cases hs : runAttempt ctx k fs tr with
    | next fs' tr' =>
      rw [attemptLoop_cons_next ctx k (k' :: ks) fs tr fs' tr' hs]
      exact attemptLoop_fs_clean ctx ks k' fs' tr'
    | done res fs' tr' =>
      rw [attemptLoop_cons_done ctx k (k' :: ks) fs tr res fs' tr' hs]
      intro nm hnm
      have h := runAttempt_fs_clean ctx k fs tr
      rw [hs] at h
      exact h nm hnm

theorem attemptLoop_created (ctx : CtrlCtx)
    (hp : ∀ k, ∀ p ∈ (ctx.envOf k).created, matchEnSrt p.1 = true)
    (hf : ∀ p ∈ ctx.fbEnv.created, matchFbAll p.1 = true) :
    ∀ (ks : List Nat) (fs : FS) (tr : Trace),
      (∀ nm ∈ tr.created, matchEnSrt nm = true) →
      ∀ nm ∈ (attemptLoop ctx ks fs tr).trace.created,
        matchEnSrt nm = true ∨
          (matchFbAll nm = true ∧
            ∀ m ∈ fsNames (attemptLoop ctx ks fs tr).fs, matchFbAll m = false)
  | [], fs, tr, hin => by
    rw [attemptLoop]
    intro nm hnm
    exact Or.inl (hin nm hnm)
  | k :: ks, fs, tr, hin => by
    cases hs : runAttempt ctx k fs tr with
    | next fs' tr' =>
      rw [attemptLoop_cons_next ctx k ks fs tr fs' tr' hs]
      exact attemptLoop_created ctx hp hf ks fs' tr'
        (runAttempt_next_created ctx k fs tr fs' tr' hs hin (hp k))
    | done res fs' tr' =>
      rw [attemptLoop_cons_done ctx k ks fs tr res fs' tr' hs]
      exact runAttempt_done_created ctx k fs tr res fs' tr' hs hin (hp k) hf

theorem range_maxRetries : List.range maxRetries = [0, 1, 2] := by decide

/-- C3: after any controller call — transcript, definite failure, or an
exception absorbed mid-step — no file created during the call remains: the
primary run's files all match the caption glob and are removed by the
per-iteration cleanup, and the fallback's files all match `fallback.*` and
are removed by the fallback's own cleanup. -/
theorem cleanup_totality (ctx : CtrlCtx) (fs : FS)
    (hp : ∀ k, ∀ p ∈ (ctx.envOf k).created, matchEnSrt p.1 = true)
    (hf : ∀ p ∈ ctx.fbEnv.created, matchFbAll p.1 = true)
    (nm : List Char) (hnm : nm ∈ (runController ctx fs).trace.created) :
    nm ∉ fsNames (runController ctx fs).fs := by
  intro hmem
  have hclean : ∀ m ∈ fsNames (runController ctx fs).fs, matchEnSrt m = false := by
    rw [runController, range_maxRetries]
    exact attemptLoop_fs_clean ctx [1, 2] 0 fs initTrace
  have hcre := attemptLoop_created ctx hp hf (List.range maxRetries) fs initTrace
    (by intro nm' h; simp [initTrace] at h) nm hnm
  rcases hcre with h | ⟨hfb, hcl⟩
  · rw [hclean nm hmem] at h
    cases h
  · rw [hcl nm hmem] at hfb
    cases hfb

/-! ### The remaining per-branch equations of the retry loop -/

theorem runAttempt_fail_next (ctx : CtrlCtx) (k : Nat) (fs : FS) (tr : Trace)
    (e : List Char) (h : (ctx.envOf k).outcome = RunOutcome.fail e)
    (hk : k < maxRetries - 1) :
    runAttempt ctx k fs tr =
      StepOut.next (cleanupEnSrt (addFiles fs (ctx.envOf k).created))
        (traceAfterRun tr (ctx.envOf k)) := by
  simp only [runAttempt, h]
  by_cases hr : rateLimited (pyLower e) = true
  · rw [if_pos hr, if_pos hk]
  · rw [if_neg hr, if_pos hk]

theorem runAttempt_fail_last_noRL (ctx : CtrlCtx) (k : Nat) (fs : FS)
    (tr : Trace) (e : List Char)
    (h : (ctx.envOf k).outcome = RunOutcome.fail e)
    (hr : rateLimited (pyLower e) = false) (hk : ¬ k < maxRetries - 1) :
    runAttempt ctx k fs tr =
      StepOut.done none (cleanupEnSrt (addFiles fs (ctx.envOf k).created))
        (traceAfterRun tr (ctx.envOf k)) := by
  simp only [runAttempt, h]
  rw [if_neg (by rw [hr]; exact Bool.false_ne_true), if_neg hk]

theorem runAttempt_fail_last_RL (ctx : CtrlCtx) (k : Nat) (fs : FS)
    (tr : Trace) (e : List Char)
    (h : (ctx.envOf k).outcome = RunOutcome.fail e)
    (hr : rateLimited (pyLower e) = true) (hk : ¬ k < maxRetries - 1) :
    runAttempt ctx k fs tr =
      StepOut.done
        (try_fallback_mode ctx.fbEnv (addFiles fs (ctx.envOf k).created)
          (traceAfterRun tr (ctx.envOf k))).result
        (cleanupEnSrt (try_fallback_mode ctx.fbEnv
          (addFiles fs (ctx.envOf k).created)
          (traceAfterRun tr (ctx.envOf k))).fs)
        (try_fallback_mode ctx.fbEnv (addFiles fs (ctx.envOf k).created)
          (traceAfterRun tr (ctx.envOf k))).trace := by
  simp only [runAttempt, h]
  rw [if_pos hr, if_neg hk]

theorem runAttempt_success_failure_cases (ctx : CtrlCtx) (k : Nat) (fs : FS)
    (tr : Trace) (hout : (ctx.envOf k).outcome = RunOutcome.success) :
    (globEnSrt (addFiles fs (ctx.envOf k).created) = [] →
      runAttempt ctx k fs tr =
        StepOut.done none (cleanupEnSrt (addFiles fs (ctx.envOf k).created))
          (traceAfterRun tr (ctx.envOf k))) ∧
    (∀ f,
      select_best_subtitle_file (globEnSrt (addFiles fs (ctx.envOf k).created))
          ctx.url ctx.autoMode ctx.inputs = SelOutcome.selected f →
      pyStrip (readFile (addFiles fs (ctx.envOf k).created) f) = [] →
      runAttempt ctx k fs tr =
        StepOut.done none (cleanupEnSrt (addFiles fs (ctx.envOf k).created))
          (traceAfterRun tr (ctx.envOf k))) := by
  constructor
  · intro hg
    simp only [runAttempt, hout]
    rw [if_pos (by rw [hg]; rfl)]
  · intro f hsel hcont
    by_cases hg : (globEnSrt (addFiles fs (ctx.envOf k).created)).isEmpty = true
    · simp only [runAttempt, hout]
      rw [if_pos hg]
    · simp only [runAttempt, hout]
      rw [if_neg hg]
      simp only [hsel]
      by_cases hfe : f.isEmpty = true
      · rw [if_pos hfe]
      · rw [if_neg hfe, if_pos (by rw [hcont]; rfl)]

/-- C5: three non-rate-limited process failures exhaust the retry budget:
the controller returns a definite failure (`none`) after exactly 3 attempts
and the fallback path is never invoked. -/
theorem nonratelimit_exhaustion (ctx : CtrlCtx) (fs : FS) (e0 e1 e2 : List Char)
    (h0 : (ctx.envOf 0).outcome = RunOutcome.fail e0)
    (hr0 : rateLimited (pyLower e0) = false)
    (h1 : (ctx.envOf 1).outcome = RunOutcome.fail e1)
    (hr1 : rateLimited (pyLower e1) = false)
    (h2 : (ctx.envOf 2).outcome = RunOutcome.fail e2)
    (hr2 : rateLimited (pyLower e2) = false) :
    (runController ctx fs).result = none ∧
      (runController ctx fs).trace.fallbackRuns = 0 ∧
      (runController ctx fs).trace.attemptsRun = 3 := by
  rw [runController, range_maxRetries,
    attemptLoop_cons_next ctx 0 [1, 2] fs initTrace _ _
      (runAttempt_fail_next ctx 0 fs initTrace e0 h0 (by decide)),
    attemptLoop_cons_next ctx 1 [2] _ _ _ _
      (runAttempt_fail_next ctx 1 _ _ e1 h1 (by decide)),
    attemptLoop_cons_done ctx 2 [] _ _ _ _ _
      (runAttempt_fail_last_noRL ctx 2 _ _ e2 h2 hr2 (by decide))]
  exact ⟨rfl, rfl, rfl⟩

/-- C2: a rate-limited process failure (stderr lowercased contains `429` or
`too many requests`) retries while attempts remain; on the final attempt it
invokes the fallback exactly once — one more recorded fallback run — and the
loop returns the fallback's result directly; in the three-rate-limited-
failures scenario the controller result is the fallback result and the
fallback ran exactly once. -/
theorem ratelimit_retry_and_fallback :
    (∀ (ctx : CtrlCtx) (k : Nat) (ks : List Nat) (fs : FS) (tr : Trace)
      (e : List Char),
      (ctx.envOf k).outcome = RunOutcome.fail e →
      rateLimited (pyLower e) = true →
      k < maxRetries - 1 →
      attemptLoop ctx (k :: ks) fs tr =
        attemptLoop ctx ks (cleanupEnSrt (addFiles fs (ctx.envOf k).created))
          (traceAfterRun tr (ctx.envOf k))) ∧
    (∀ (ctx : CtrlCtx) (k : Nat) (ks : List Nat) (fs : FS) (tr : Trace)
      (e : List Char),
      (ctx.envOf k).outcome = RunOutcome.fail e →
      rateLimited (pyLower e) = true →
      ¬ k < maxRetries - 1 →
      attemptLoop ctx (k :: ks) fs tr =
        ⟨(try_fallback_mode ctx.fbEnv (addFiles fs (ctx.envOf k).created)
            (traceAfterRun tr (ctx.envOf k))).result,
          cleanupEnSrt (try_fallback_mode ctx.fbEnv
            (addFiles fs (ctx.envOf k).created)
            (traceAfterRun tr (ctx.envOf k))).fs,
          (try_fallback_mode ctx.fbEnv (addFiles fs (ctx.envOf k).created)
            (traceAfterRun tr (ctx.envOf k))).trace⟩ ∧
        (attemptLoop ctx (k :: ks) fs tr).trace.fallbackRuns =
          tr.fallbackRuns + 1) ∧
    (∀ (ctx : CtrlCtx) (fs : FS) (e0 e1 e2 : List Char),
      (ctx.envOf 0).outcome = RunOutcome.fail e0 →
      rateLimited (pyLower e0) = true →
      (ctx.envOf 1).outcome = RunOutcome.fail e1 →
      rateLimited (pyLower e1) = true →
      (ctx.envOf 2).outcome = RunOutcome.fail e2 →
      rateLimited (pyLower e2) = true →
      (runController ctx fs).result =
          (try_fallback_mode ctx.fbEnv (fsBeforeFallback ctx fs)
            (traceBeforeFallback ctx)).result ∧
        (runController ctx fs).trace.fallbackRuns = 1) := by
  refine ⟨?_, ?_, ?_⟩
  · intro ctx k ks fs tr e h hr hk
    exact attemptLoop_cons_next ctx k ks fs tr _ _
      (runAttempt_fail_next ctx k fs tr e h hk)
  · intro ctx k ks fs tr e h hr hk
    have heq := attemptLoop_cons_done ctx k ks fs tr _ _ _
      (runAttempt_fail_last_RL ctx k fs tr e h hr hk)
    refine ⟨heq, ?_⟩
    rw [heq]
    exact (fb_trace_shape ctx.fbEnv (addFiles fs (ctx.envOf k).created)
      (traceAfterRun tr (ctx.envOf k))).1
  · intro ctx fs e0 e1 e2 h0 hr0 h1 hr1 h2 hr2
    rw [runController, range_maxRetries,
      attemptLoop_cons_next ctx 0 [1, 2] fs initTrace _ _
        (runAttempt_fail_next ctx 0 fs initTrace e0 h0 (by decide)),
      attemptLoop_cons_next ctx 1 [2] _ _ _ _
        (runAttempt_fail_next ctx 1 _ _ e1 h1 (by decide)),
      attemptLoop_cons_done ctx 2 [] _ _ _ _ _
        (runAttempt_fail_last_RL ctx 2 _ _ e2 h2 hr2 (by decide))]
    refine ⟨rfl, ?_⟩
    exact (fb_trace_shape ctx.fbEnv (fsBeforeFallback ctx fs)
      (traceBeforeFallback ctx)).1

/-- C6: after a zero-exit run, an empty caption glob is a definite failure
with no further retry, and a selected file with whitespace-only content is
likewise a definite failure with no further retry. -/
theorem success_definite_failures (ctx : CtrlCtx) (k : Nat) (ks : List Nat)
    (fs : FS) (tr : Trace)
    (hout : (ctx.envOf k).outcome = RunOutcome.success) :
    (globEnSrt (addFiles fs (ctx.envOf k).created) = [] →
      (attemptLoop ctx (k :: ks) fs tr).result = none ∧
        (attemptLoop ctx (k :: ks) fs tr).trace.attemptsRun =
          tr.attemptsRun + 1) ∧
    (∀ f,
      select_best_subtitle_file (globEnSrt (addFiles fs (ctx.envOf k).created))
          ctx.url ctx.autoMode ctx.inputs = SelOutcome.selected f →
      pyStrip (readFile (addFiles fs (ctx.envOf k).created) f) = [] →
      (attemptLoop ctx (k :: ks) fs tr).result = none ∧
        (attemptLoop ctx (k :: ks) fs tr).trace.attemptsRun =
          tr.attemptsRun + 1) := by
  have hsf := runAttempt_success_failure_cases ctx k fs tr hout
  constructor
  · intro hg
    rw [attemptLoop_cons_done ctx k ks fs tr _ _ _ (hsf.1 hg)]
    exact ⟨rfl, rfl⟩
  · intro f hsel hcont
    rw [attemptLoop_cons_done ctx k ks fs tr _ _ _ (hsf.2 f hsel hcont)]
    exact ⟨rfl, rfl⟩

/-- C9: in the fallback, when WebVTT matches exist the selected file is the
first WebVTT match — VTT glob results precede SRT results — and the selected
file is parsed with the SRT parser exactly when its name ends in `.srt`,
with the VTT parser otherwise. -/
theorem fallback_format_preference (env : AttemptEnv) (fs : FS) (tr : Trace)
    (hout : env.outcome = RunOutcome.success) :
    (∀ v vs, globFbVtt (addFiles fs env.created) = v :: vs →
      (try_fallback_mode env fs tr).trace.fbSelected = some v ∧
        matchFbVtt v = true) ∧
    (∀ f rest, globFallback (addFiles fs env.created) = f :: rest →
      (try_fallback_mode env fs tr).trace.fbSelected = some f ∧
      ((pyStrip (readFile (addFiles fs env.created) f)).isEmpty = false →
        (try_fallback_mode env fs tr).result =
          (if (if srtSuffixL.isSuffixOf f then
                parseSrtL (readFile (addFiles fs env.created) f)
              else parseVttL (readFile (addFiles fs env.created) f)).isEmpty then
            none
          else
            some (if srtSuffixL.isSuffixOf f then
                parseSrtL (readFile (addFiles fs env.created) f)
              else parseVttL (readFile (addFiles fs env.created) f))))) := by
  constructor
  · intro v vs hv
    have hg : globFallback (addFiles fs env.created) =
        v :: (vs ++ globFbSrt (addFiles fs env.created)) := by
      rw [globFallback, hv]
      rfl
    refine ⟨fb_selected_head env fs tr v _ hout hg, ?_⟩
    have hvm : v ∈ globFbVtt (addFiles fs env.created) := by
      rw [hv]
      exact List.mem_cons_self v vs
    exact (List.mem_filter.1 hvm).2
  · intro f rest hg
    exact ⟨fb_selected_head env fs tr f rest hout hg,
      fun hne => fb_result_of_nonempty env fs tr f rest hout hg hne⟩

/-- Witness for the rate-limit/fallback theorem on the concrete scenario. -/
theorem ratelimit_retry_and_fallback_witness :
    (runController ctxRL []).result =
        (try_fallback_mode ctxRL.fbEnv (fsBeforeFallback ctxRL [])
          (traceBeforeFallback ctxRL)).result ∧
      (runController ctxRL []).trace.fallbackRuns = 1 :=
  ratelimit_retry_and_fallback.2.2 ctxRL [] rlErr rlErr rlErr (by decide)
    (by decide) (by decide) (by decide) (by decide) (by decide)

/-- Witness for the cleanup theorem: the caption file created by the
successful run is gone from the final working directory. -/
theorem cleanup_totality_witness :
    "t.en.srt".toList ∉ fsNames (runController ctxOk []).fs :=
  cleanup_totality ctxOk []
    (fun _ =>
      (by decide : ∀ p ∈ (ctxOk.envOf 0).created, matchEnSrt p.1 = true))
    (by decide) ("t.en.srt".toList) (by decide)

/-- Witness for the non-rate-limit exhaustion theorem. -/
theorem nonratelimit_exhaustion_witness :
    (runController ctxPlain []).result = none ∧
      (runController ctxPlain []).trace.fallbackRuns = 0 ∧
      (runController ctxPlain []).trace.attemptsRun = 3 :=
  nonratelimit_exhaustion ctxPlain [] plainErr plainErr plainErr (by decide)
    (by decide) (by decide) (by decide) (by decide) (by decide)

/-- Witness for the definite-failure theorem: a zero-exit run with no
caption files returns `None` after one attempt. -/
theorem success_definite_failures_witness :
    (attemptLoop ctxNoFiles [0, 1, 2] [] initTrace).result = none ∧
      (attemptLoop ctxNoFiles [0, 1, 2] [] initTrace).trace.attemptsRun =
        initTrace.attemptsRun + 1 :=
  (success_definite_failures ctxNoFiles 0 [1, 2] [] initTrace (by decide)).1
    (by decide)

/-- Witness for the fallback format-preference theorem on a directory with
both a WebVTT and an SRT fallback file. -/
theorem fallback_format_preference_witness :
    ((try_fallback_mode fbEnvW [] initTrace).trace.fbSelected =
        some ("fallback.en.vtt".toList) ∧
      matchFbVtt ("fallback.en.vtt".toList) = true) ∧
    ((try_fallback_mode fbEnvW [] initTrace).trace.fbSelected =
        some ("fallback.en.vtt".toList) ∧
      (try_fallback_mode fbEnvW [] initTrace).result =
        (if (if srtSuffixL.isSuffixOf ("fallback.en.vtt".toList) then
              parseSrtL (readFile (addFiles [] fbEnvW.created)
                ("fallback.en.vtt".toList))
            else parseVttL (readFile (addFiles [] fbEnvW.created)
              ("fallback.en.vtt".toList))).isEmpty then
          none
        else
          some (if srtSuffixL.isSuffixOf ("fallback.en.vtt".toList) then
              parseSrtL (readFile (addFiles [] fbEnvW.created)
                ("fallback.en.vtt".toList))
            else parseVttL (readFile (addFiles [] fbEnvW.created)
              ("fallback.en.vtt".toList))))) :=
  ⟨(fallback_format_preference fbEnvW [] initTrace (by decide)).1
      ("fallback.en.vtt".toList) [] (by decide),
    ((fallback_format_preference fbEnvW [] initTrace (by decide)).2
        ("fallback.en.vtt".toList) ["fallback.en.srt".toList] (by decide)).1,
    ((fallback_format_preference fbEnvW [] initTrace (by decide)).2
        ("fallback.en.vtt".toList) ["fallback.en.srt".toList]
        (by decide)).2 (by decide)⟩

end Ytcc
